import Mathlib

/-!
Verification of the rapid state-machine executor (statemachine.go).

The file shallowly embeds the executor: `runAction`, `executeAction`
(the bounded action draw-and-retry loop), the `Repeat` driver, and the
reflection-based `StateMachineActions` catalog discovery.  External
collaborators (the entropy/shrink engine draw primitive and the repeat
budget bookkeeping) are modelled from the spec at their interfaces.
-/

namespace Rapid

/-- Values the embedded Go code can panic with: `invalidData` is the
recoverable inapplicability signal, `stopTest` a structured trial stop,
`other` any remaining fault (e.g. an assertion failure), carrying an
arbitrary code. -/
inductive PanicValue where
  | invalidData (msg : String)
  | stopTest (msg : String)
  | other (code : Nat)
deriving DecidableEq

/-- Result of running a Go function body against the trial context:
either a normal return or a panic, in both cases recording the trial
draw counter value when the body finished. -/
inductive RunResult where
  | normal (draws : Nat)
  | panics (p : PanicValue) (draws : Nat)
deriving DecidableEq

/-- An action body, as a function of the trial draw counter at entry.
This folds `action.Func(t)` together with the `t.failOnError()` call
that `runAction` performs right after it: a deferred-error panic shows
up as a `panics` result. -/
def ActionBody : Type := Nat → RunResult

/-- Mirror of the Go `StateMachineAction` struct: a named action. -/
structure StateMachineAction where
  Name : String
  Func : ActionBody

/-- Mirror of `actionLabel` in statemachine.go. -/
def actionLabel : String := "action"

/-- Mirror of `validActionTries` in statemachine.go. -/
def validActionTries : Nat := 100

/-- Events recorded against the entropy engine: opening a labeled draw
group (`beginGroup`, the handle is the numeric id) and closing one
(`endGroup` with the matching handle). -/
inductive Event where
  | beginG (label : String) (id : Nat)
  | endG (id : Nat)
deriving DecidableEq

/-- The per-trial execution state visible to the executor: the engine
draw counter `draws` (`t.draws`), the trace of group events issued to
the engine, and the next fresh group handle. -/
structure ExecState where
  draws : Nat
  trace : List Event
  nextId : Nat
deriving DecidableEq

/-- Outcome of `runAction`: either a `(invalid, skipped)` return (with
the resulting draw counter) or a propagated panic. -/
inductive RunOutcome where
  | ret (invalid skipped : Bool) (draws : Nat)
  | panics (p : PanicValue) (draws : Nat)
deriving DecidableEq

/-- Shallow embedding of `runAction` (statemachine.go lines 125-141).
The deferred recover catches an `invalidData` panic, returning
`invalid = true` and `skipped = (t.draws == draws)` where `draws` was
captured at entry; any other panic is re-raised; a normal return gives
`(false, false)`. -/
def runAction (body : ActionBody) (draws0 : Nat) : RunOutcome :=
  match body draws0 with
  | RunResult.normal d => RunOutcome.ret false false d
  | RunResult.panics (PanicValue.invalidData _) d =>
      RunOutcome.ret true (decide (d = draws0)) d
  | RunResult.panics p d => RunOutcome.panics p d

/-- Outcome of one `executeAction` call: a boolean return, the
`panic(stopTest(noValidActionsMsg))` raised after `validActionTries`
skipped attempts, or a propagated fatal panic. -/
inductive StepOutcome where
  | ret (ok : Bool)
  | noValidAction
  | fatal (p : PanicValue)
deriving DecidableEq

/-- Modelled from the spec: the engine sampling primitive used by
`sm.actions.Draw` (the `Generator`/`SampledFrom` machinery is outside
src/; the spec specifies only `sample(catalog) -> Action`, with the
choice delegated entirely to the engine).  The engine choice is an
oracle read at the current draw-counter value; the selection consumes
one draw (the counter is monotonically increasing). -/
def sample (catalog : List StateMachineAction) (oracle : Nat → Nat) (k : Nat) :
    StateMachineAction :=
  catalog.getD (oracle k % catalog.length) ⟨"", fun d => RunResult.normal d⟩

/-- Shallow embedding of the retry loop of `executeAction`
(statemachine.go lines 106-123), with the remaining tries as fuel.
Each attempt opens a labeled group (`beginGroup`), draws an action
(consuming one draw), runs it, and closes the group on the return path;
a skipped attempt continues the loop, otherwise `!invalid` is returned.
On a re-raised panic the group is left open (there is no defer around
`endGroup`).  Exhausting the fuel is the `noValidActionsMsg` panic. -/
def executeActionAux (catalog : List StateMachineAction) (oracle : Nat → Nat) :
    Nat → ExecState → StepOutcome × ExecState
  | 0, s => (StepOutcome.noValidAction, s)
  | fuel+1, s =>
    match runAction (sample catalog oracle s.draws).Func (s.draws + 1) with
    | RunOutcome.ret invalid skipped d2 =>
        if skipped then
          executeActionAux catalog oracle fuel
            ⟨d2, s.trace ++ [Event.beginG actionLabel s.nextId, Event.endG s.nextId],
              s.nextId + 1⟩
        else
          (StepOutcome.ret !invalid,
            ⟨d2, s.trace ++ [Event.beginG actionLabel s.nextId, Event.endG s.nextId],
              s.nextId + 1⟩)
    | RunOutcome.panics p d2 =>
        (StepOutcome.fatal p,
          ⟨d2, s.trace ++ [Event.beginG actionLabel s.nextId], s.nextId + 1⟩)

/-- Shallow embedding of `stateMachine.executeAction`: the loop runs
for at most `validActionTries` attempts. -/
def executeAction (catalog : List StateMachineAction) (oracle : Nat → Nat)
    (s : ExecState) : StepOutcome × ExecState :=
  executeActionAux catalog oracle validActionTries s

/-- Step-level events of one `Repeat` trial: an invariant-check
invocation, a successful step, a rejected step. -/
inductive REvent where
  | check
  | stepOk
  | stepRejected
deriving DecidableEq

/-- How a `Repeat` trial ended: normal budget exhaustion, the
no-valid-action panic, a fatal failure raised by the check function, a
fatal failure propagated from an action, or model fuel exhaustion
(the loop is not structurally terminating because rejected steps do
not consume the budget). -/
inductive TrialStatus where
  | finished
  | noValidAction
  | fatalCheck
  | fatalAction (p : PanicValue)
  | outOfFuel
deriving DecidableEq

def isCheckEv : REvent → Bool
  | REvent.check => true
  | _ => false

def isOkEv : REvent → Bool
  | REvent.stepOk => true
  | _ => false

def isBeginEv : Event → Bool
  | Event.beginG _ _ => true
  | _ => false

def isEndEv : Event → Bool
  | Event.endG _ => true
  | _ => false

/-- Modelled from the spec: the body of the `Repeat` loop
(`newRepeat`/`repeat.more`/`repeat.reject` live outside src/).  Per the
spec, the driver runs until the step budget is exhausted; a rejected
step (`executeAction` returned false) does not count against the step
budget.  `checkOpt` is the optional check function, indexed by how many
times it has been invoked so far (`true` = it raises a fatal assertion
failure on that invocation); after each successful step the check runs
and any failure aborts the trial.  `fuel` bounds the model recursion. -/
def repeatAux (catalog : List StateMachineAction) (oracle : Nat → Nat)
    (checkOpt : Option (Nat → Bool)) (budget : Nat) :
    Nat → Nat → Nat → ExecState → List REvent × TrialStatus × ExecState
  | 0, _, _, s => ([], TrialStatus.outOfFuel, s)
  | fuel+1, done, ck, s =>
    if done < budget then
      match executeAction catalog oracle s with
      | (StepOutcome.ret true, s2) =>
        match checkOpt with
        | none =>
          let r := repeatAux catalog oracle checkOpt budget fuel (done+1) ck s2
          (REvent.stepOk :: r.1, r.2)
        | some f =>
          if f ck then ([REvent.stepOk, REvent.check], TrialStatus.fatalCheck, s2)
          else
            let r := repeatAux catalog oracle checkOpt budget fuel (done+1) (ck+1) s2
            (REvent.stepOk :: REvent.check :: r.1, r.2)
      | (StepOutcome.ret false, s2) =>
        let r := repeatAux catalog oracle checkOpt budget fuel done ck s2
        (REvent.stepRejected :: r.1, r.2)
      | (StepOutcome.noValidAction, s2) => ([], TrialStatus.noValidAction, s2)
      | (StepOutcome.fatal p, s2) => ([], TrialStatus.fatalAction p, s2)
    else ([], TrialStatus.finished, s)

/-- Shallow embedding of `T.Repeat` (statemachine.go lines 29-57):
computes the step budget from the configured `flags.steps` (halved when
`testing.Short()` is set), runs the initial invariant check, then the
step loop.  A failing initial check aborts before any step. -/
def Repeat (catalog : List StateMachineAction) (oracle : Nat → Nat)
    (checkOpt : Option (Nat → Bool)) (flagsSteps : Nat) (short : Bool)
    (fuel : Nat) (s : ExecState) : List REvent × TrialStatus × ExecState :=
  let steps := if short then flagsSteps / 2 else flagsSteps
  match checkOpt with
  | none => repeatAux catalog oracle none steps fuel 0 0 s
  | some f =>
    if f 0 then ([REvent.check], TrialStatus.fatalCheck, s)
    else
      let r := repeatAux catalog oracle (some f) steps fuel 0 1 s
      (REvent.check :: r.1, r.2)

/-- A reflected method of the user object: either one whose value is
assignable to the action signature `func(*T)` (carrying its body), or
one with any other signature. -/
inductive Method where
  | action (name : String) (f : ActionBody)
  | other (name : String)

def methodName : Method → String
  | Method.action n _ => n
  | Method.other n => n

def isActionMethod : Method → Bool
  | Method.action _ _ => true
  | Method.other _ => false

/-- The type assertion `v.Method(i).Interface().(func(*T))` of
`StateMachineActions`: keeps exactly the methods with the recognized
single-context-argument signature. -/
def toAction : Method → Option StateMachineAction
  | Method.action n f => some ⟨n, f⟩
  | Method.other _ => none

/-- The `for i := 0; i < n; i++` discovery loop of
`StateMachineActions`, with its `append` accumulator. -/
def smaLoop : List Method → List StateMachineAction → List StateMachineAction
  | [], acc => acc
  | m :: rest, acc =>
    match toAction m with
    | some a => smaLoop rest (acc ++ [a])
    | none => smaLoop rest acc

/-- Shallow embedding of `StateMachineActions` (statemachine.go lines
78-100): reflection is modelled as the object's reflected method list
in order; the `assertf(len(actions) > 0, ...)` configuration failure is
`none`; on success the discovered catalog (fed to `SampledFrom`) is
returned. -/
def StateMachineActions (ms : List Method) : Option (List StateMachineAction) :=
  let actions := smaLoop ms []
  if actions.length > 0 then some actions else none

/-! ### Concrete actions and states used to evaluate the executor -/

/-- An action that always signals inapplicability without consuming any
entropy (the draw counter is unchanged when the signal is raised). -/
def freeSkipAction : StateMachineAction :=
  ⟨"A", fun d => RunResult.panics (PanicValue.invalidData "skip") d⟩

/-- An action that always consumes one draw and then signals
inapplicability. -/
def costlySkipAction : StateMachineAction :=
  ⟨"A", fun d => RunResult.panics (PanicValue.invalidData "skip") (d + 1)⟩

/-- An action that always consumes two draws and then signals
inapplicability. -/
def costlySkip2Action : StateMachineAction :=
  ⟨"A", fun d => RunResult.panics (PanicValue.invalidData "skip") (d + 2)⟩

/-- An action that raises a fatal (non-inapplicability) fault without
consuming entropy. -/
def fatalAction : StateMachineAction :=
  ⟨"F", fun d => RunResult.panics (PanicValue.other 7) d⟩

/-- An action that always runs to completion without drawing. -/
def completingAction : StateMachineAction :=
  ⟨"B", fun d => RunResult.normal d⟩

/-- The initial trial state: no draws, empty trace. -/
def s0 : ExecState := ⟨0, [], 0⟩

/-! ### Theorems -/

set_option maxRecDepth 8000 in
/-- Claim C1 (counterexample): the claim states that an Inapplicable
signal that consumed no entropy is retried without counting against the
100-attempt budget, so that free retries can never cause NoValidAction.
On the code the opposite holds: with a catalog containing only an
action that always signals inapplicability without consuming entropy,
`executeAction` makes exactly `validActionTries` (= 100) attempts (100
groups are opened) and then fails with NoValidAction. -/
theorem freeSkip_hundred_noValidAction :
    (executeAction [freeSkipAction] (fun _ => 0) s0).1 = StepOutcome.noValidAction ∧
    (executeAction [freeSkipAction] (fun _ => 0) s0).2.trace.countP isBeginEv =
      validActionTries :=
  ⟨rfl, rfl⟩

/-- Claim C2 (counterexample): the claim states that an action always
Inapplicable after consuming 1 unit of entropy yields exactly 100
attempts and then NoValidAction.  On the code, such an attempt has
`skipped = false` and `invalid = true`, so `executeAction` returns
`false` (trial-level rejection) after a single attempt and never
reaches NoValidAction. -/
theorem costlySkip_rejects_immediately :
    (executeAction [costlySkipAction] (fun _ => 0) s0).1 = StepOutcome.ret false ∧
    (executeAction [costlySkipAction] (fun _ => 0) s0).1 ≠ StepOutcome.noValidAction ∧
    (executeAction [costlySkipAction] (fun _ => 0) s0).2.trace.countP isBeginEv = 1 :=
  ⟨rfl, by decide, rfl⟩

/-- Claim C3 (counterexample): the claim states that one `executeAction`
call either reports success or terminates the trial with NoValidAction.
On the code there is a third outcome: with an action that consumes
entropy and then signals inapplicability, `executeAction` returns
`false` — no action ran to completion and NoValidAction was not
raised. -/
theorem executeAction_can_return_false :
    (executeAction [costlySkip2Action] (fun _ => 0) s0).1 ≠ StepOutcome.ret true ∧
    (executeAction [costlySkip2Action] (fun _ => 0) s0).1 ≠ StepOutcome.noValidAction := by
  decide

/-- Claim C4 (counterexample): the claim states that the labeled draw
group is closed on every exit path, including a fatal fault.  On the
code, a fatal panic propagates from `runAction` before `endGroup` runs:
with an action raising a fatal fault, the final trace holds one
`beginG` and no `endG`. -/
theorem fatal_leaves_group_open :
    (executeAction [fatalAction] (fun _ => 0) s0).1 =
      StepOutcome.fatal (PanicValue.other 7) ∧
    (executeAction [fatalAction] (fun _ => 0) s0).2.trace.countP isBeginEv = 1 ∧
    (executeAction [fatalAction] (fun _ => 0) s0).2.trace.countP isEndEv = 0 :=
  ⟨rfl, rfl, rfl⟩

/-- Helper: with a non-empty catalog the engine's sample is an element
of the catalog. -/
theorem sample_mem (catalog : List StateMachineAction) (oracle : Nat → Nat) (k : Nat)
    (h : catalog ≠ []) : sample catalog oracle k ∈ catalog := by
  have hl : 0 < catalog.length := List.length_pos.mpr h
  have hi : oracle k % catalog.length < catalog.length := Nat.mod_lt _ hl
  unfold sample
  rw [List.getD_eq_getElem?_getD, List.getElem?_eq_getElem hi]
  exact List.getElem_mem hi

/-- Helper: when every catalog action always signals inapplicability
without consuming entropy, every attempt of the retry loop is skipped,
so the loop burns all its fuel (two trace events per attempt) and ends
in NoValidAction. -/
theorem executeActionAux_all_freeSkip (catalog : List StateMachineAction)
    (oracle : Nat → Nat) (hne : catalog ≠ [])
    (h : ∀ a ∈ catalog, ∀ d, ∃ m,
      a.Func d = RunResult.panics (PanicValue.invalidData m) d) :
    ∀ fuel s, (executeActionAux catalog oracle fuel s).1 = StepOutcome.noValidAction ∧
      (executeActionAux catalog oracle fuel s).2.trace.length =
        s.trace.length + 2 * fuel := by
  intro fuel
  induction fuel with
  | zero => intro s; exact ⟨rfl, by simp [executeActionAux]⟩
  | succ n ih =>
    intro s
    obtain ⟨m, hm⟩ := h _ (sample_mem catalog oracle s.draws hne) (s.draws + 1)
    have hr : runAction (sample catalog oracle s.draws).Func (s.draws + 1) =
        RunOutcome.ret true true (s.draws + 1) := by
      simp [runAction, hm]
    have step : executeActionAux catalog oracle (n+1) s =
        executeActionAux catalog oracle n
          ⟨s.draws + 1,
            s.trace ++ [Event.beginG actionLabel s.nextId, Event.endG s.nextId],
            s.nextId + 1⟩ := by
      rw [executeActionAux, hr]
      rfl
    rw [step]
    obtain ⟨h1, h2⟩ := ih
      ⟨s.draws + 1,
        s.trace ++ [Event.beginG actionLabel s.nextId, Event.endG s.nextId],
        s.nextId + 1⟩
    refine ⟨h1, ?_⟩
    rw [h2]
    simp
    omega

/-- Claim C1 (amended theorem): an Inapplicable signal that consumed no
entropy is retried, but each such free retry does count against the
bounded `validActionTries` budget: if every action of a non-empty
catalog always signals inapplicability without consuming entropy, one
`executeAction` call makes exactly `validActionTries` attempts and then
fails with NoValidAction. -/
theorem executeAction_all_freeSkip_noValidAction (catalog : List StateMachineAction)
    (oracle : Nat → Nat) (s : ExecState) (hne : catalog ≠ [])
    (h : ∀ a ∈ catalog, ∀ d, ∃ m,
      a.Func d = RunResult.panics (PanicValue.invalidData m) d) :
    (executeAction catalog oracle s).1 = StepOutcome.noValidAction ∧
    (executeAction catalog oracle s).2.trace.length =
      s.trace.length + 2 * validActionTries :=
  executeActionAux_all_freeSkip catalog oracle hne h validActionTries s

/-- Claim C1 (witness): the free-skip catalog realizes the hypotheses
and indeed exhausts the budget. -/
theorem executeAction_all_freeSkip_noValidAction_witness :
    (executeAction [freeSkipAction] (fun _ => 0) s0).1 = StepOutcome.noValidAction ∧
    (executeAction [freeSkipAction] (fun _ => 0) s0).2.trace.length =
      s0.trace.length + 2 * validActionTries :=
  executeAction_all_freeSkip_noValidAction [freeSkipAction] (fun _ => 0) s0
    (List.cons_ne_nil _ _)
    (fun a ha d => by
      rw [List.mem_singleton] at ha
      subst ha
      exact ⟨"skip", rfl⟩)

/-- Claim C2 (amended theorem): a single attempt whose action signals
Inapplicable after consuming entropy makes `executeAction` return
`false` immediately — one attempt, with its group closed; the step is
handed to the driver as a trial-level rejection, not retried and not
escalated to NoValidAction. -/
theorem executeAction_costly_skip_rejects (catalog : List StateMachineAction)
    (oracle : Nat → Nat) (s : ExecState) (m : String) (e : Nat)
    (hb : (sample catalog oracle s.draws).Func (s.draws + 1) =
      RunResult.panics (PanicValue.invalidData m) e)
    (hd : e ≠ s.draws + 1) :
    executeAction catalog oracle s =
      (StepOutcome.ret false,
        ⟨e, s.trace ++ [Event.beginG actionLabel s.nextId, Event.endG s.nextId],
          s.nextId + 1⟩) := by
  have hr : runAction (sample catalog oracle s.draws).Func (s.draws + 1) =
      RunOutcome.ret true false e := by
    simp [runAction, hb, hd]
  show executeActionAux catalog oracle validActionTries s = _
  rw [show validActionTries = 99 + 1 from rfl, executeActionAux, hr]
  rfl

/-- Claim C2 (witness): the one-draw costly-skip catalog realizes the
hypotheses: the step is rejected after one attempt. -/
theorem executeAction_costly_skip_rejects_witness :
    executeAction [costlySkipAction] (fun _ => 0) s0 =
      (StepOutcome.ret false,
        ⟨2, [Event.beginG actionLabel 0, Event.endG 0], 1⟩) :=
  executeAction_costly_skip_rejects [costlySkipAction] (fun _ => 0) s0 "skip" 2
    rfl (by decide)

/-- Helper: with a non-empty catalog whose actions can only panic with
`invalidData`, the retry loop ends in one of three ways: success after
a completed action, `false` after a costly skip, or NoValidAction. -/
theorem executeActionAux_outcomes (catalog : List StateMachineAction)
    (oracle : Nat → Nat) (hne : catalog ≠ [])
    (hnf : ∀ a ∈ catalog, ∀ d p e, a.Func d = RunResult.panics p e →
      ∃ m, p = PanicValue.invalidData m) :
    ∀ fuel s,
      ((executeActionAux catalog oracle fuel s).1 = StepOutcome.ret true ∧
        ∃ a ∈ catalog, ∃ d e, a.Func d = RunResult.normal e)
      ∨ ((executeActionAux catalog oracle fuel s).1 = StepOutcome.ret false ∧
        ∃ a ∈ catalog, ∃ d e m,
          a.Func d = RunResult.panics (PanicValue.invalidData m) e ∧ e ≠ d)
      ∨ (executeActionAux catalog oracle fuel s).1 = StepOutcome.noValidAction := by
  intro fuel
  induction fuel with
  | zero => intro s; exact Or.inr (Or.inr rfl)
  | succ n ih =>
    intro s
    have hmem := sample_mem catalog oracle s.draws hne
    cases hb : (sample catalog oracle s.draws).Func (s.draws + 1) with
    | normal e =>
      have hr : runAction (sample catalog oracle s.draws).Func (s.draws + 1) =
          RunOutcome.ret false false e := by
        simp [runAction, hb]
      refine Or.inl ⟨?_, _, hmem, s.draws + 1, e, hb⟩
      rw [executeActionAux, hr]
      rfl
    | panics p e =>
      obtain ⟨m, rfl⟩ := hnf _ hmem _ p e hb
      by_cases he : e = s.draws + 1
      · have hr : runAction (sample catalog oracle s.draws).Func (s.draws + 1) =
            RunOutcome.ret true true e := by
          simp [runAction, hb, he]
        have step : executeActionAux catalog oracle (n+1) s =
            executeActionAux catalog oracle n
              ⟨e, s.trace ++ [Event.beginG actionLabel s.nextId, Event.endG s.nextId],
                s.nextId + 1⟩ := by
          rw [executeActionAux, hr]
          rfl
        rw [step]
        exact ih _
      · have hr : runAction (sample catalog oracle s.draws).Func (s.draws + 1) =
            RunOutcome.ret true false e := by
          simp [runAction, hb, he]
        refine Or.inr (Or.inl ⟨?_, _, hmem, s.draws + 1, e, m, hb, he⟩)
        rw [executeActionAux, hr]
        rfl

/-- Claim C3 (amended theorem): for a non-empty catalog whose actions
raise no fatal fault, one `executeAction` call either reports success
(some action ran to completion), reports `false` (an action signaled
Inapplicable after consuming entropy, rejecting the step at the trial
level), or terminates the trial with NoValidAction — there is no silent
fourth outcome. -/
theorem executeAction_outcomes (catalog : List StateMachineAction)
    (oracle : Nat → Nat) (s : ExecState) (hne : catalog ≠ [])
    (hnf : ∀ a ∈ catalog, ∀ d p e, a.Func d = RunResult.panics p e →
      ∃ m, p = PanicValue.invalidData m) :
    ((executeAction catalog oracle s).1 = StepOutcome.ret true ∧
      ∃ a ∈ catalog, ∃ d e, a.Func d = RunResult.normal e)
    ∨ ((executeAction catalog oracle s).1 = StepOutcome.ret false ∧
      ∃ a ∈ catalog, ∃ d e m,
        a.Func d = RunResult.panics (PanicValue.invalidData m) e ∧ e ≠ d)
    ∨ (executeAction catalog oracle s).1 = StepOutcome.noValidAction :=
  executeActionAux_outcomes catalog oracle hne hnf validActionTries s

/-- Claim C3 (witness): a completing catalog realizes the hypotheses. -/
theorem executeAction_outcomes_witness :
    ((executeAction [completingAction] (fun _ => 0) s0).1 = StepOutcome.ret true ∧
      ∃ a ∈ [completingAction], ∃ d e, a.Func d = RunResult.normal e)
    ∨ ((executeAction [completingAction] (fun _ => 0) s0).1 = StepOutcome.ret false ∧
      ∃ a ∈ [completingAction], ∃ d e m,
        a.Func d = RunResult.panics (PanicValue.invalidData m) e ∧ e ≠ d)
    ∨ (executeAction [completingAction] (fun _ => 0) s0).1 =
        StepOutcome.noValidAction :=
  executeAction_outcomes [completingAction] (fun _ => 0) s0 (List.cons_ne_nil _ _)
    (by
      intro a ha d p e hb
      rw [List.mem_singleton] at ha
      subst ha
      simp [completingAction] at hb)

/-- Helper: the begin/end group counts of the trace across the retry
loop: balanced on every returning path, and one more `beginG` than
`endG` on the fatal path. -/
theorem executeActionAux_group_balance (catalog : List StateMachineAction)
    (oracle : Nat → Nat) :
    ∀ fuel s,
      (∀ ok s2, executeActionAux catalog oracle fuel s = (StepOutcome.ret ok, s2) →
        s2.trace.countP isEndEv + s.trace.countP isBeginEv =
          s2.trace.countP isBeginEv + s.trace.countP isEndEv) ∧
      (∀ s2, executeActionAux catalog oracle fuel s = (StepOutcome.noValidAction, s2) →
        s2.trace.countP isEndEv + s.trace.countP isBeginEv =
          s2.trace.countP isBeginEv + s.trace.countP isEndEv) ∧
      (∀ p s2, executeActionAux catalog oracle fuel s = (StepOutcome.fatal p, s2) →
        s2.trace.countP isBeginEv + s.trace.countP isEndEv =
          s2.trace.countP isEndEv + 1 + s.trace.countP isBeginEv) := by
  intro fuel
  induction fuel with
  | zero =>
    intro s
    refine ⟨?_, ?_, ?_⟩
    · intro ok s2 h; simp [executeActionAux] at h
    · intro s2 h
      simp [executeActionAux] at h
      rw [h]
      omega
    · intro p s2 h; simp [executeActionAux] at h
  | succ n ih =>
    intro s
    cases hr : runAction (sample catalog oracle s.draws).Func (s.draws + 1) with
    | ret invalid skipped d2 =>
      cases skipped with
      | true =>
        have step : executeActionAux catalog oracle (n+1) s =
            executeActionAux catalog oracle n
              ⟨d2, s.trace ++ [Event.beginG actionLabel s.nextId, Event.endG s.nextId],
                s.nextId + 1⟩ := by
          rw [executeActionAux, hr]
          rfl
        obtain ⟨ih1, ih2, ih3⟩ := ih
          ⟨d2, s.trace ++ [Event.beginG actionLabel s.nextId, Event.endG s.nextId],
            s.nextId + 1⟩
        have hB : (s.trace ++
            [Event.beginG actionLabel s.nextId, Event.endG s.nextId]).countP isBeginEv =
            s.trace.countP isBeginEv + 1 := by
          simp [List.countP_append, List.countP_cons, isBeginEv, isEndEv]
        have hE : (s.trace ++
            [Event.beginG actionLabel s.nextId, Event.endG s.nextId]).countP isEndEv =
            s.trace.countP isEndEv + 1 := by
          simp [List.countP_append, List.countP_cons, isBeginEv, isEndEv]
        refine ⟨?_, ?_, ?_⟩
        · intro ok s2 h
          rw [step] at h
          have := ih1 ok s2 h
          simp only [hB, hE] at this
          omega
        · intro s2 h
          rw [step] at h
          have := ih2 s2 h
          simp only [hB, hE] at this
          omega
        · intro p s2 h
          rw [step] at h
          have := ih3 p s2 h
          simp only [hB, hE] at this
          omega
      | false =>
        have step : executeActionAux catalog oracle (n+1) s =
            (StepOutcome.ret !invalid,
              ⟨d2, s.trace ++ [Event.beginG actionLabel s.nextId, Event.endG s.nextId],
                s.nextId + 1⟩) := by
          rw [executeActionAux, hr]
          rfl
        refine ⟨?_, ?_, ?_⟩
        · intro ok s2 h
          rw [step] at h
          obtain ⟨h1, h2⟩ := Prod.mk.injEq .. ▸ h
          subst h2
          simp [List.countP_append, List.countP_cons, isBeginEv, isEndEv]
          omega
        · intro s2 h
          rw [step] at h
          simp at h
        · intro p s2 h
          rw [step] at h
          simp at h
    | panics p d2 =>
      have step : executeActionAux catalog oracle (n+1) s =
          (StepOutcome.fatal p,
            ⟨d2, s.trace ++ [Event.beginG actionLabel s.nextId], s.nextId + 1⟩) := by
        rw [executeActionAux, hr]
      refine ⟨?_, ?_, ?_⟩
      · intro ok s2 h
        rw [step] at h
        simp at h
      · intro s2 h
        rw [step] at h
        simp at h
      · intro q s2 h
        rw [step] at h
        obtain ⟨h1, h2⟩ := Prod.mk.injEq .. ▸ h
        subst h2
        simp [List.countP_append, List.countP_cons, isBeginEv, isEndEv]
        omega

/-- Claim C4 (amended theorem): starting from a balanced trace, every
returning exit of `executeAction` (action completion, skipped or costly
inapplicability, and the NoValidAction panic, which is raised after the
last group was closed) leaves the begin/end group events balanced; on a
fatal fault the panic propagates with exactly one group left open. -/
theorem executeAction_group_balance (catalog : List StateMachineAction)
    (oracle : Nat → Nat) (s : ExecState)
    (hbal : s.trace.countP isEndEv = s.trace.countP isBeginEv) :
    (∀ ok s2, executeAction catalog oracle s = (StepOutcome.ret ok, s2) →
      s2.trace.countP isEndEv = s2.trace.countP isBeginEv) ∧
    (∀ s2, executeAction catalog oracle s = (StepOutcome.noValidAction, s2) →
      s2.trace.countP isEndEv = s2.trace.countP isBeginEv) ∧
    (∀ p s2, executeAction catalog oracle s = (StepOutcome.fatal p, s2) →
      s2.trace.countP isBeginEv = s2.trace.countP isEndEv + 1) := by
  obtain ⟨h1, h2, h3⟩ := executeActionAux_group_balance catalog oracle validActionTries s
  refine ⟨?_, ?_, ?_⟩
  · intro ok s2 h
    have := h1 ok s2 h
    omega
  · intro s2 h
    have := h2 s2 h
    omega
  · intro p s2 h
    have := h3 p s2 h
    omega

/-- Claim C4 (witness): a completed action leaves a balanced trace. -/
theorem executeAction_group_balance_witness :
    (⟨1, [Event.beginG actionLabel 0, Event.endG 0], 1⟩ : ExecState).trace.countP isEndEv =
      (⟨1, [Event.beginG actionLabel 0, Event.endG 0], 1⟩ : ExecState).trace.countP isBeginEv :=
  (executeAction_group_balance [completingAction] (fun _ => 0) s0 rfl).1 true _ rfl

/-- Helper: `runAction` never lets an `invalidData` panic escape. -/
theorem runAction_panics_not_invalid (body : ActionBody) (d : Nat)
    (q : PanicValue) (e : Nat)
    (h : runAction body d = RunOutcome.panics q e) :
    ∀ m, q ≠ PanicValue.invalidData m := by
  intro m hm
  subst hm
  cases hb : body d with
  | normal d2 => simp [runAction, hb] at h
  | panics p d2 => cases p <;> simp [runAction, hb] at h

/-- Helper: every `fatal` outcome of the retry loop carries a
non-`invalidData` panic value. -/
theorem executeActionAux_fatal_not_invalid (catalog : List StateMachineAction)
    (oracle : Nat → Nat) :
    ∀ fuel s q s2, executeActionAux catalog oracle fuel s = (StepOutcome.fatal q, s2) →
      ∀ m, q ≠ PanicValue.invalidData m := by
  intro fuel
  induction fuel with
  | zero => intro s q s2 h; simp [executeActionAux] at h
  | succ n ih =>
    intro s q s2 h
    rw [executeActionAux] at h
    split at h
    · split at h
      · exact ih _ _ _ h
      · simp at h
    · rename_i p d2 heq
      simp at h
      obtain ⟨h1, _⟩ := h
      exact h1 ▸ runAction_panics_not_invalid _ _ _ _ heq

/-- Claim C5: an Inapplicable (`invalidData`) signal raised by the
action is always caught inside `runAction` and never propagates (in
particular `executeAction` never reports it as a fatal outcome), while
any other fault raised by the action body propagates unchanged. -/
theorem runAction_signal_discipline (body : ActionBody) (d : Nat) :
    (∀ m e, runAction body d ≠ RunOutcome.panics (PanicValue.invalidData m) e) ∧
    (∀ p e, (∀ m, p ≠ PanicValue.invalidData m) →
      body d = RunResult.panics p e → runAction body d = RunOutcome.panics p e) ∧
    (∀ catalog oracle s q s2,
      executeAction catalog oracle s = (StepOutcome.fatal q, s2) →
      ∀ m, q ≠ PanicValue.invalidData m) := by
  refine ⟨?_, ?_, ?_⟩
  · intro m e h
    exact runAction_panics_not_invalid body d _ e h m rfl
  · intro p e hp hb
    cases p with
    | invalidData m => exact absurd rfl (hp m)
    | stopTest m => simp [runAction, hb]
    | other c => simp [runAction, hb]
  · intro catalog oracle s q s2 h
    exact executeActionAux_fatal_not_invalid catalog oracle validActionTries s q s2 h

/-- Claim C5 (witness): a `stopTest` fault propagates unchanged out of
`runAction`. -/
theorem runAction_signal_discipline_witness :
    runAction (fun d => RunResult.panics (PanicValue.stopTest "boom") d) 3 =
      RunOutcome.panics (PanicValue.stopTest "boom") 3 :=
  (runAction_signal_discipline
      (fun d => RunResult.panics (PanicValue.stopTest "boom") d) 3).2.1
    (PanicValue.stopTest "boom") 3 (fun _ hm => PanicValue.noConfusion hm) rfl

/-- Claim C9: the classification returned by `runAction` satisfies
`skipped → invalid` (the pair `(invalid = false, skipped = true)` is
unreachable), and `skipped` holds exactly when the action raised the
inapplicability signal with the draw counter equal to its value at
action start. -/
theorem runAction_skipped_classification (body : ActionBody) (d0 : Nat)
    (invalid skipped : Bool) (d : Nat)
    (h : runAction body d0 = RunOutcome.ret invalid skipped d) :
    (skipped = true → invalid = true) ∧
    (skipped = true ↔ ∃ m, body d0 = RunResult.panics (PanicValue.invalidData m) d0) := by
  cases hb : body d0 with
  | normal d2 =>
    simp only [runAction, hb] at h
    injection h with h1 h2 h3
    subst h1
    subst h2
    simp [hb]
  | panics p d2 =>
    cases p with
    | invalidData msg =>
      simp only [runAction, hb] at h
      injection h with h1 h2 h3
      subst h1
      subst h2
      subst h3
      simp [hb]
    | stopTest msg => simp [runAction, hb] at h
    | other c => simp [runAction, hb] at h

/-- Claim C9 (witness): the free-skip action at draw counter 5 is
classified as skipped, and indeed raised `invalidData` with the counter
unchanged. -/
theorem runAction_skipped_classification_witness :
    (true = true → true = true) ∧
    (true = true ↔
      ∃ m, freeSkipAction.Func 5 = RunResult.panics (PanicValue.invalidData m) 5) :=
  runAction_skipped_classification freeSkipAction.Func 5 true true 5 rfl

/-- Positional check discipline over a step-event list: no `check`
event without an immediately preceding `stepOk`. -/
def goodChecks : List REvent → Bool
  | [] => true
  | REvent.check :: _ => false
  | REvent.stepOk :: REvent.check :: rest => goodChecks rest
  | _ :: rest => goodChecks rest

/-- Helper: inside the step loop with a provided check function, every
successful step is immediately followed by exactly one check, so check
events and successful-step events are in bijection and every check is
preceded by a `stepOk`. -/
theorem repeatAux_checks (catalog : List StateMachineAction) (oracle : Nat → Nat)
    (f : Nat → Bool) (budget : Nat) :
    ∀ fuel done ck s,
      (repeatAux catalog oracle (some f) budget fuel done ck s).1.countP isCheckEv =
        (repeatAux catalog oracle (some f) budget fuel done ck s).1.countP isOkEv ∧
      goodChecks (repeatAux catalog oracle (some f) budget fuel done ck s).1 = true := by
  intro fuel
  induction fuel with
  | zero => intro done ck s; simp [repeatAux, goodChecks]
  | succ n ih =>
    intro done ck s
    by_cases hd : done < budget
    · rcases hstep : executeAction catalog oracle s with ⟨out, s2⟩
      cases out with
      | ret ok =>
        cases ok with
        | true =>
          by_cases hf : f ck
          · simp [repeatAux, hd, hstep, hf, List.countP_cons, isCheckEv, isOkEv,
              goodChecks]
          · obtain ⟨ih1, ih2⟩ := ih (done+1) (ck+1) s2
            simp only [repeatAux, hd, if_pos, hstep, hf, if_neg, Bool.false_eq_true,
              not_false_iff]
            simp [List.countP_cons, isCheckEv, isOkEv, goodChecks, ih1, ih2]
        | false =>
          obtain ⟨ih1, ih2⟩ := ih done ck s2
          simp only [repeatAux, hd, if_pos, hstep]
          simp [List.countP_cons, isCheckEv, isOkEv, goodChecks, ih1, ih2]
      | noValidAction => simp [repeatAux, hd, hstep, goodChecks]
      | fatal p => simp [repeatAux, hd, hstep, goodChecks]
    · simp [repeatAux, hd, goodChecks]

/-- Claim C6: in every `Repeat` trial with a provided check function,
the invariant check runs exactly once before the first step and exactly
once after each successful step (check events = successful steps + 1),
the first event is the initial check, and every later check immediately
follows a successful step — so no check ever follows a rejected step or
a NoValidAction exhaustion. -/
theorem Repeat_check_discipline (catalog : List StateMachineAction)
    (oracle : Nat → Nat) (f : Nat → Bool) (flagsSteps : Nat) (short : Bool)
    (fuel : Nat) (s : ExecState) :
    (Repeat catalog oracle (some f) flagsSteps short fuel s).1.countP isCheckEv =
      (Repeat catalog oracle (some f) flagsSteps short fuel s).1.countP isOkEv + 1 ∧
    ∃ rest, (Repeat catalog oracle (some f) flagsSteps short fuel s).1 =
      REvent.check :: rest ∧ goodChecks rest = true := by
  by_cases hf : f 0
  · refine ⟨?_, [], ?_, rfl⟩ <;>
      simp [Repeat, hf, List.countP_cons, isCheckEv, isOkEv]
  · obtain ⟨h1, h2⟩ := repeatAux_checks catalog oracle f
      (if short then flagsSteps / 2 else flagsSteps) fuel 0 1 s
    refine ⟨?_, ?_⟩
    · simp [Repeat, hf, List.countP_cons, isCheckEv, isOkEv]
      omega
    · refine ⟨(repeatAux catalog oracle (some f)
        (if short then flagsSteps / 2 else flagsSteps) fuel 0 1 s).1, ?_, h2⟩
      simp [Repeat, hf]

/-- Helper: the step loop completes at most `budget - done` further
successful steps, and exactly that many when it ends with normal budget
exhaustion. -/
theorem repeatAux_budget (catalog : List StateMachineAction) (oracle : Nat → Nat)
    (checkOpt : Option (Nat → Bool)) (budget : Nat) :
    ∀ fuel done ck s, done ≤ budget →
      (repeatAux catalog oracle checkOpt budget fuel done ck s).1.countP isOkEv +
        done ≤ budget ∧
      ((repeatAux catalog oracle checkOpt budget fuel done ck s).2.1 =
          TrialStatus.finished →
        (repeatAux catalog oracle checkOpt budget fuel done ck s).1.countP isOkEv +
          done = budget) := by
  intro fuel
  induction fuel with
  | zero =>
    intro done ck s hdone
    refine ⟨by simpa [repeatAux] using hdone, ?_⟩
    intro h
    simp [repeatAux] at h
  | succ n ih =>
    intro done ck s hdone
    by_cases hd : done < budget
    · rcases hstep : executeAction catalog oracle s with ⟨out, s2⟩
      cases out with
      | ret ok =>
        cases ok with
        | true =>
          cases checkOpt with
          | none =>
            obtain ⟨ih1, ih2⟩ := ih (done+1) ck s2 hd
            simp only [repeatAux, hd, if_pos, hstep]
            constructor
            · simp [List.countP_cons, isOkEv]
              omega
            · intro h
              have := ih2 h
              simp [List.countP_cons, isOkEv]
              omega
          | some f =>
            by_cases hf : f ck
            · simp only [repeatAux, hd, if_pos, hstep, hf, if_pos]
              constructor
              · simp [List.countP_cons, isCheckEv, isOkEv]
                omega
              · intro h
                simp at h
            · obtain ⟨ih1, ih2⟩ := ih (done+1) (ck+1) s2 hd
              simp only [repeatAux, hd, if_pos, hstep, hf, if_neg,
                Bool.false_eq_true, not_false_iff]
              constructor
              · simp [List.countP_cons, isCheckEv, isOkEv]
                omega
              · intro h
                have := ih2 h
                simp [List.countP_cons, isCheckEv, isOkEv]
                omega
        | false =>
          obtain ⟨ih1, ih2⟩ := ih done ck s2 hdone
          simp only [repeatAux, hd, if_pos, hstep]
          constructor
          · simp [List.countP_cons, isOkEv]
            omega
          · intro h
            have := ih2 h
            simp [List.countP_cons, isOkEv]
            omega
      | noValidAction =>
        simp only [repeatAux, hd, if_pos, hstep]
        exact ⟨by simpa using hdone, by intro h; simp at h⟩
      | fatal p =>
        simp only [repeatAux, hd, if_pos, hstep]
        exact ⟨by simpa using hdone, by intro h; simp at h⟩
    · have hb : done = budget := by omega
      simp [repeatAux, hd, hb]

/-- Claim C7: the step budget used by `Repeat` is the externally
configured step count, halved by integer division when the short/fast
test mode flag is set: a trial never completes more successful steps
than that budget, and a trial that ends by normal budget exhaustion
completes exactly that many. -/
theorem Repeat_step_budget (catalog : List StateMachineAction) (oracle : Nat → Nat)
    (checkOpt : Option (Nat → Bool)) (flagsSteps : Nat) (short : Bool)
    (fuel : Nat) (s : ExecState) :
    (Repeat catalog oracle checkOpt flagsSteps short fuel s).1.countP isOkEv ≤
      (if short then flagsSteps / 2 else flagsSteps) ∧
    ((Repeat catalog oracle checkOpt flagsSteps short fuel s).2.1 =
        TrialStatus.finished →
      (Repeat catalog oracle checkOpt flagsSteps short fuel s).1.countP isOkEv =
        (if short then flagsSteps / 2 else flagsSteps)) := by
  cases checkOpt with
  | none =>
    obtain ⟨h1, h2⟩ := repeatAux_budget catalog oracle none
      (if short then flagsSteps / 2 else flagsSteps) fuel 0 0 s (Nat.zero_le _)
    constructor
    · simpa [Repeat] using h1
    · intro h
      have := h2 (by simpa [Repeat] using h)
      simpa [Repeat] using this
  | some f =>
    by_cases hf : f 0
    · constructor
      · simp [Repeat, hf, List.countP_cons, isOkEv]
      · intro h
        simp [Repeat, hf] at h
    · obtain ⟨h1, h2⟩ := repeatAux_budget catalog oracle (some f)
        (if short then flagsSteps / 2 else flagsSteps) fuel 0 1 s (Nat.zero_le _)
      constructor
      · simpa [Repeat, hf, List.countP_cons, isOkEv] using h1
      · intro h
        have := h2 (by simpa [Repeat, hf] using h)
        simpa [Repeat, hf, List.countP_cons, isOkEv] using this

/-- Claim C7 (witness): with the configured count 4 and short mode on,
a finishing trial completes exactly 4 / 2 = 2 successful steps. -/
theorem Repeat_step_budget_witness :
    (Repeat [completingAction] (fun _ => 0) none 4 true 10 s0).1.countP isOkEv =
      (if true then 4 / 2 else 4) :=
  (Repeat_step_budget [completingAction] (fun _ => 0) none 4 true 10 s0).2 rfl

/-- Helper: the discovery loop is the filterMap of the type assertion
over the method list, appended to its accumulator. -/
theorem smaLoop_eq (ms : List Method) :
    ∀ acc, smaLoop ms acc = acc ++ ms.filterMap toAction := by
  induction ms with
  | nil => intro acc; simp [smaLoop]
  | cons m rest ih =>
    intro acc
    cases m with
    | action n f => simp [smaLoop, toAction, ih, List.filterMap_cons]
    | other n => simp [smaLoop, toAction, ih, List.filterMap_cons]

/-- Claim C8: catalog construction from an object with zero
discoverable actions fails with a configuration error (the `assertf`
fires before any trial step could run), and a successful construction
never yields an empty catalog. -/
theorem StateMachineActions_empty_fails (ms : List Method) :
    ((∀ m ∈ ms, isActionMethod m = false) → StateMachineActions ms = none) ∧
    (∀ acts, StateMachineActions ms = some acts → acts ≠ []) := by
  constructor
  · intro h
    have hnil : ms.filterMap toAction = [] := by
      rw [List.filterMap_eq_nil_iff]
      intro m hm
      cases hmc : m with
      | action n f => rw [hmc] at hm; have := h _ hm; simp [isActionMethod] at this
      | other n => simp [toAction]
    simp [StateMachineActions, smaLoop_eq, hnil]
  · intro acts h hnil
    simp only [StateMachineActions] at h
    split at h
    · rename_i hlen
      injection h with h2
      subst h2
      rw [hnil] at hlen
      simp at hlen
    · exact Option.noConfusion h

/-- Claim C8 (witness): an object whose only method has a non-action
signature is rejected at construction. -/
theorem StateMachineActions_empty_fails_witness :
    StateMachineActions [Method.other "String"] = none :=
  (StateMachineActions_empty_fails [Method.other "String"]).1 (by decide)

/-- Helper: the discovered names are exactly the names of the
matching-signature methods, in reflected order. -/
theorem discovered_names (ms : List Method) :
    (ms.filterMap toAction).map StateMachineAction.Name =
      (ms.filter isActionMethod).map methodName := by
  induction ms with
  | nil => simp
  | cons m rest ih =>
    cases m with
    | action n f =>
      simp [toAction, isActionMethod, methodName, List.filterMap_cons,
        List.filter_cons, ih]
    | other n =>
      simp [toAction, isActionMethod, List.filterMap_cons, List.filter_cons, ih]

/-- Claim C10: when at least one method matches the action signature,
discovery succeeds without an error, and the catalog consists of
exactly the matching methods (the filterMap of the type assertion), in
the object's reflected method order, with every non-matching method
silently excluded — the name sequence equals the names of the matching
methods in order. -/
theorem StateMachineActions_discovery (ms : List Method)
    (h : ∃ m ∈ ms, isActionMethod m = true) :
    ∃ acts, StateMachineActions ms = some acts ∧
      acts = ms.filterMap toAction ∧
      acts.map StateMachineAction.Name = (ms.filter isActionMethod).map methodName := by
  obtain ⟨m, hm, hact⟩ := h
  have hne : ms.filterMap toAction ≠ [] := by
    intro hnil
    rw [List.filterMap_eq_nil_iff] at hnil
    have := hnil m hm
    cases m with
    | action n f => simp [toAction] at this
    | other n => simp [isActionMethod] at hact
  refine ⟨ms.filterMap toAction, ?_, rfl, discovered_names ms⟩
  simp only [StateMachineActions, smaLoop_eq, List.nil_append]
  rw [if_pos (List.length_pos.mpr hne)]

/-- A demonstration object: one non-action method followed by one
action-signature method. -/
def demoMethods : List Method :=
  [Method.other "String", Method.action "Inc" (fun d => RunResult.normal d)]

/-- Claim C10 (witness): discovery on the demonstration object keeps
exactly the single action-signature method. -/
theorem StateMachineActions_discovery_witness :
    ∃ acts, StateMachineActions demoMethods = some acts ∧
      acts = demoMethods.filterMap toAction ∧
      acts.map StateMachineAction.Name =
        (demoMethods.filter isActionMethod).map methodName :=
  StateMachineActions_discovery demoMethods (by decide)

end Rapid
